import Mathlib

/-!
# Verification of the `bits` dependency-graph and task-lifecycle engine

Shallow embedding of the core of the `bits` task tracker:

* the item entity model (`internal/task/task.go`),
* the dependency graph engine (`internal/deps`: `IsBlocked`, `BlockedBy`,
  `WouldCreateCycle`, `Ready`, `ValidateAddDep`, `taskLess`),
* the task lifecycle commands (`cmd/bits`: `claim`, `release`, `close`,
  `dep`, `rm`) and the storage cascade (`Store.RemoveDependency`),
* the drain-gated session stop hook (`cmd/bits/session.go`).

A store snapshot is represented as a `List Task`.  The on-disk store keys a
task by its id (one file per id, file name = id), so a well-formed snapshot
has pairwise distinct ids; where a proof needs that fact it is an explicit
hypothesis.  The list order stands for the deterministic order in which
`Store.List` returns tasks (sorted by priority then creation time); the
lifecycle operations never modify those sort keys, so this order is stable
across the operations modelled here.

Go statuses and priorities are plain strings (`type Status string`), so they
are embedded as `String`; timestamps are embedded as `Nat` ticks (only
`time.Time.Before`, a strict total order, is used by the code).
-/

namespace Bits

/-- Status constant `task.StatusOpen`. -/
def statusOpen : String := "open"

/-- Status constant `task.StatusActive`. -/
def statusActive : String := "active"

/-- Status constant `task.StatusClosed`. -/
def statusClosed : String := "closed"

/-- Embeds `task.PriorityOrder`: sort order for a priority string
(lower = higher priority, unrecognized last). -/
def priorityOrder (p : String) : Nat :=
  if p = "critical" then 0
  else if p = "high" then 1
  else if p = "medium" then 2
  else if p = "low" then 3
  else 4

/-- Embeds `task.Task`: a tracked work item (`internal/task/task.go`).
`createdAt`/`closedAt` are abstract ticks; the `Description` field does not
participate in any modelled operation and is omitted. -/
structure Task where
  id : String
  title : String
  status : String
  priority : String
  createdAt : Nat
  closedAt : Option Nat
  closeReason : Option String
  dependsOn : List String
  deriving Repr, DecidableEq

/-- The error kinds of `internal/errors` that the modelled operations raise. -/
inductive BitsError where
  | taskNotFound (id : String)
  | invalidStatus (id current expected : String)
  | activeTaskExists (id title : String)
  | blocked (id : String) (blockedBy : List String)
  | cycleDetected (frm toId : String)
  | missingReason
  deriving Repr, DecidableEq

deriving instance DecidableEq for Except

/-- Embeds `Graph.Get` / map lookup `g.tasks[id]`: the task stored under `id`.
`deps.NewGraph` keys tasks by id; on an id-unique snapshot the first match
is the unique match. -/
def getTask (g : List Task) (id : String) : Option Task :=
  g.find? (fun t => t.id == id)

/-- Embeds `Graph.IsBlocked`: true iff some identifier in the item's `depends_on`
resolves to an existing task whose status is not closed
(missing dependencies are skipped). -/
def isBlocked (g : List Task) (id : String) : Bool :=
  match getTask g id with
  | none => false
  | some t =>
    t.dependsOn.any fun depID =>
      match getTask g depID with
      | none => false
      | some dep => dep.status != statusClosed

/-- Embeds `Graph.BlockedBy`: the dependency identifiers (input order preserved)
that currently block the item. -/
def blockedBy (g : List Task) (id : String) : List String :=
  match getTask g id with
  | none => []
  | some t =>
    t.dependsOn.filter fun depID =>
      match getTask g depID with
      | none => false
      | some dep => dep.status != statusClosed

/-- Successors of a node in the dependency graph: the `depends_on` list of
the task stored under `x`, or `[]` when `x` is a dead end (missing task).
This is the edge function the BFS of `Graph.WouldCreateCycle` follows. -/
def succs (g : List Task) (x : String) : List String :=
  match getTask g x with
  | none => []
  | some t => t.dependsOn

/-- The BFS loop body of `Graph.WouldCreateCycle`, with an explicit fuel
bounding the number of loop iterations (the Go loop terminates because each
iteration either shrinks the queue or marks a previously unvisited id;
`cycleFuel` below is a proven-sufficient iteration bound). -/
def bfsCycle (g : List Task) (frm : String) : Nat → List String → List String → Bool
  | 0, _, _ => false
  | Nat.succ fuel, visited, queue =>
    match queue with
    | [] => false
    | current :: rest =>
      if current = frm then true
      else if current ∈ visited then bfsCycle g frm fuel visited rest
      else bfsCycle g frm fuel (current :: visited) (rest ++ succs g current)

/-- Every id the BFS seeded at `toId` can ever enqueue: the seed plus every
entry of every task's `depends_on` list. -/
def uni (g : List Task) (toId : String) : List String :=
  toId :: (g.map Task.dependsOn).flatten

/-- Fuel weight of one id: popping it unvisited costs one iteration and
enqueues at most `(succs g u).length` further ids. -/
def weight (g : List Task) (u : String) : Nat :=
  (succs g u).length + 1

/-- A sufficient iteration bound for the BFS of `Graph.WouldCreateCycle`
started on queue `[toId]` with an empty visited set. -/
def cycleFuel (g : List Task) (toId : String) : Nat :=
  ((uni g toId).map (weight g)).sum + 2

/-- Embeds `Graph.WouldCreateCycle`: would adding the edge `frm → toId` create a
cycle?  BFS from `toId` along existing `depends_on` edges, returning true
iff the traversal reaches `frm`. -/
def wouldCreateCycle (g : List Task) (frm toId : String) : Bool :=
  bfsCycle g frm (cycleFuel g toId) [] [toId]

/-- Embeds `Graph.ValidateAddDep`: existence check on both endpoints (in order
`frm` then `toId`), then the cycle check.  Pure validation: it consumes the
snapshot and mutates nothing (its result carries no store). -/
def validateAddDep (g : List Task) (frm toId : String) : Except BitsError Unit :=
  match getTask g frm with
  | none => .error (.taskNotFound frm)
  | some _ =>
    match getTask g toId with
    | none => .error (.taskNotFound toId)
    | some _ =>
      if wouldCreateCycle g frm toId then .error (.cycleDetected frm toId)
      else .ok ()

/-- Embeds `deps.taskLess`: sort by priority order first, then by creation time. -/
def taskLess (a b : Task) : Bool :=
  if priorityOrder a.priority ≠ priorityOrder b.priority then
    decide (priorityOrder a.priority < priorityOrder b.priority)
  else
    decide (a.createdAt < b.createdAt)

/-- The non-strict order in which `sort.Slice` with comparator
`taskLess` leaves a slice sorted. -/
def taskLE (a b : Task) : Prop :=
  taskLess b a = false

instance : DecidableRel taskLE := fun a b => by
  unfold taskLE; infer_instance

/-- Embeds `Graph.Ready`: the open, unblocked tasks, sorted by `taskLess`.
Go's `sort.Slice` guarantees a permutation of the filtered collection that
is sorted with respect to the comparator; `List.insertionSort` realizes
exactly that specification. -/
def ready (g : List Task) : List Task :=
  List.insertionSort taskLE
    (g.filter fun t => t.status == statusOpen && !(isBlocked g t.id))

/-- Embeds `Graph.Dependents`: ids of tasks whose `depends_on` contains `id`,
in snapshot order. -/
def dependents (g : List Task) (id : String) : List String :=
  (g.filter fun t => t.dependsOn.contains id).map Task.id

/-- Embeds `Store.Load`: the task stored under `id`, or `TaskNotFound`. -/
def loadTask (s : List Task) (id : String) : Except BitsError Task :=
  match getTask s id with
  | none => .error (.taskNotFound id)
  | some t => .ok t

/-- Embeds `Store.Save`: overwrite the entry keyed by `t.id`, creating it when no
such entry exists. -/
def saveTask (s : List Task) (t : Task) : List Task :=
  if s.any (fun u => u.id == t.id) then
    s.map fun u => if u.id == t.id then t else u
  else
    s ++ [t]

/-- Embeds `Store.Delete`: remove the entry keyed by `id`, or `TaskNotFound`. -/
def deleteTask (s : List Task) (id : String) : Except BitsError (List Task) :=
  if s.any (fun u => u.id == id) then
    .ok (s.filter fun u => u.id != id)
  else
    .error (.taskNotFound id)

/-- Modelled from the spec: `task.FindActive`, whose body is absent from
the provided sources (only its callers in `claimCmd` and its unit test
`TestFindActive` are present).  Per the spec's design note, the single
active item is found by scanning the current snapshot for an item with
`active` status; the unit test pins the result to the first such item. -/
def findActive (tasks : List Task) : Option Task :=
  tasks.find? fun t => t.status == statusActive

/-- Embeds `claimCmd`: load the item, require `open` status, refuse while another
item is active, refuse while blocking dependencies remain, otherwise mark
the item active and persist.  The checks run in exactly this order. -/
def claim (s : List Task) (id : String) : Except BitsError (List Task) :=
  (loadTask s id).bind fun t =>
    if t.status != statusOpen then
      .error (.invalidStatus t.id t.status statusOpen)
    else
      match findActive s with
      | some active => .error (.activeTaskExists active.id active.title)
      | none =>
        if (blockedBy s t.id).isEmpty then
          .ok (saveTask s { t with status := statusActive })
        else
          .error (.blocked t.id (blockedBy s t.id))

/-- Embeds `releaseCmd`: load the item, require `active` status, set it back
to `open` and persist. -/
def release (s : List Task) (id : String) : Except BitsError (List Task) :=
  (loadTask s id).bind fun t =>
    if t.status != statusActive then
      .error (.invalidStatus t.id t.status statusActive)
    else
      .ok (saveTask s { t with status := statusOpen })

/-- Embeds `closeCmd`: load the item, require `active` status and a non-empty
reason, then stamp `closed_at`/`close_reason`, set `closed` and persist.
`now` abstracts `time.Now()`. -/
def close (s : List Task) (id reason : String) (now : Nat) :
    Except BitsError (List Task) :=
  (loadTask s id).bind fun t =>
    if t.status != statusActive then
      .error (.invalidStatus t.id t.status statusActive)
    else if reason == "" then
      .error .missingReason
    else
      .ok (saveTask s { t with
        status := statusClosed, closedAt := some now, closeReason := some reason })

/-- Distinguishes `depCmd`'s two informational outcomes: the idempotent
"Dependency already exists" no-op versus an actual edge append. -/
inductive DepOutcome where
  | alreadyExists
  | added
  deriving Repr, DecidableEq

/-- Embeds `depCmd`: validate the new edge against the full snapshot, then either
report the existing edge without mutating, or append `depID` and persist. -/
def addDependency (s : List Task) (taskID depID : String) :
    Except BitsError (List Task × DepOutcome) :=
  (validateAddDep s taskID depID).bind fun _ =>
    (loadTask s taskID).bind fun t =>
      if t.dependsOn.contains depID then
        .ok (s, .alreadyExists)
      else
        .ok (saveTask s { t with dependsOn := t.dependsOn ++ [depID] }, .added)

/-- Embeds `Store.RemoveDependency`: strip `depID` from every task's `depends_on`,
persisting each task that changed.  The resulting store state equals a
pointwise filter of every task's dependency list. -/
def removeDepAll (s : List Task) (depID : String) : List Task :=
  s.map fun t => { t with dependsOn := t.dependsOn.filter fun d => d != depID }

/-- Embeds `rmCmd`: check the item exists, first strip its id from every other
item's `depends_on` (cascading cleanup), then delete the item itself —
in that order. -/
def removeItem (s : List Task) (id : String) : Except BitsError (List Task) :=
  (loadTask s id).bind fun _ =>
    deleteTask (removeDepAll s id) id

/-- Embeds `session.Session`: the per-store ownership record
(`internal/session/session.go`). -/
structure Session where
  sessionId : String
  startedAt : Nat
  source : String
  drainActive : Bool
  drainStartedAt : Option Nat
  deriving Repr, DecidableEq

/-- The tri-state result of the drain-gated stop hook (`sessionHookCmd`):
allow termination, block on the active item, or block on the count of
remaining open items. -/
inductive HookDecision where
  | allow
  | blockActive (id : String)
  | blockOpen (count : Nat)
  deriving Repr, DecidableEq

/-- Embeds `sessionHookCmd`: the decision logic of `bits session hook`.  Allows
termination unless the caller owns the recorded session, drain mode is
active, and the store still holds an `active` or `open` item; an `active`
item is reported first (by id), otherwise the count of `open` items.
`sess = none` models the absent-session-record early exit. -/
def sessionHook (sess : Option Session) (callerID : String) (tasks : List Task) :
    HookDecision :=
  match sess with
  | none => .allow
  | some s =>
    if s.sessionId != callerID then .allow
    else if !s.drainActive then .allow
    else
      match tasks.filter (fun t => t.status == statusActive) with
      | t :: _ => .blockActive t.id
      | [] =>
        let openTasks := tasks.filter fun t => t.status == statusOpen
        if openTasks.length > 0 then .blockOpen openTasks.length
        else .allow

/-- One lifecycle operation of the kind quantified over by the
single-active-item invariant. -/
inductive LifecycleOp where
  | claim (id : String)
  | release (id : String)
  | close (id reason : String) (now : Nat)
  deriving Repr, DecidableEq

/-- Run one lifecycle operation. -/
def applyOp (s : List Task) : LifecycleOp → Except BitsError (List Task)
  | .claim id => claim s id
  | .release id => release s id
  | .close id reason now => close s id reason now

/-- Run a sequence of lifecycle operations, all of which must succeed. -/
def applyOps (s : List Task) : List LifecycleOp → Except BitsError (List Task)
  | [] => .ok s
  | op :: rest => (applyOp s op).bind fun s' => applyOps s' rest

/-- The number of `active` items in a snapshot. -/
def activeCount (s : List Task) : Nat :=
  s.countP fun t => t.status == statusActive

/-- One dependency edge: `y` appears in the `depends_on` list of the task
stored under `x`. -/
def stepRel (g : List Task) (x y : String) : Prop :=
  y ∈ succs g x

/-- Reachability along existing `depends_on` edges. -/
def Reaches (g : List Task) (x y : String) : Prop :=
  Relation.ReflTransGen (stepRel g) x y

/-- A snapshot whose existing dependency edges close no cycle: no edge
starts a path leading back to its source.  This is the store invariant the
validated mutation path maintains. -/
def Acyclic (g : List Task) : Prop :=
  ∀ x y, stepRel g x y → ¬ Reaches g y x

/-- Executable acyclicity check used to discharge `Acyclic` on concrete
snapshots. -/
def acyclicB (g : List Task) : Bool :=
  g.all fun t => t.dependsOn.all fun y => !(wouldCreateCycle g t.id y)

/-! ### Correctness of the bounded BFS of `WouldCreateCycle` -/

theorem mem_of_getTask_eq_some {g : List Task} {id : String} {t : Task}
    (h : getTask g id = some t) : t ∈ g :=
  List.mem_of_find?_eq_some h

theorem id_of_getTask_eq_some {g : List Task} {id : String} {t : Task}
    (h : getTask g id = some t) : t.id = id := by
  have := List.find?_some h
  simpa using this

theorem succs_subset_uni {g : List Task} {toId x y : String}
    (h : y ∈ succs g x) : y ∈ uni g toId := by
  unfold succs at h
  rcases hg : getTask g x with _ | t
  · rw [hg] at h; simp at h
  · rw [hg] at h
    have ht : t ∈ g := mem_of_getTask_eq_some hg
    unfold uni
    refine List.mem_cons_of_mem _ ?_
    rw [List.mem_flatten]
    exact ⟨t.dependsOn, List.mem_map_of_mem Task.dependsOn ht, h⟩

theorem bfsCycle_true_reaches (g : List Task) (frm : String) :
    ∀ (fuel : Nat) (visited queue : List String),
      bfsCycle g frm fuel visited queue = true →
      ∃ c ∈ queue, Reaches g c frm := by
  intro fuel
  induction fuel with
  | zero => intro visited queue h; simp [bfsCycle] at h
  | succ fuel ih =>
    intro visited queue h
    match queue with
    | [] => simp [bfsCycle] at h
    | current :: rest =>
      by_cases hcf : current = frm
      · refine ⟨current, List.mem_cons_self _ _, ?_⟩
        rw [hcf]
        exact Relation.ReflTransGen.refl
      · by_cases hcv : current ∈ visited
        · have h' : bfsCycle g frm fuel visited rest = true := by
            simpa [bfsCycle, hcf, hcv] using h
          obtain ⟨c, hc, hr⟩ := ih visited rest h'
          exact ⟨c, List.mem_cons_of_mem _ hc, hr⟩
        · have h' : bfsCycle g frm fuel (current :: visited)
              (rest ++ succs g current) = true := by
            simpa [bfsCycle, hcf, hcv] using h
          obtain ⟨c, hc, hr⟩ := ih _ _ h'
          rcases List.mem_append.mp hc with hc | hc
          · exact ⟨c, List.mem_cons_of_mem _ hc, hr⟩
          · exact ⟨current, List.mem_cons_self _ _,
              Relation.ReflTransGen.head (show stepRel g current c from hc) hr⟩

/-- The fuel potential of a BFS state: remaining queue entries plus the
total weight of the ids not yet visited. -/
def bfsMeasure (g : List Task) (toId : String) (visited queue : List String) : Nat :=
  queue.length +
    (((uni g toId).filter fun u => decide (u ∉ visited)).map (weight g)).sum

theorem sum_filter_mono (w : String → Nat) (p q : String → Bool)
    (hpq : ∀ a, p a = true → q a = true) :
    ∀ l : List String, ((l.filter p).map w).sum ≤ ((l.filter q).map w).sum := by
  intro l
  induction l with
  | nil => simp
  | cons a l ih =>
    cases hp : p a with
    | true =>
      have hq := hpq a hp
      rw [List.filter_cons_of_pos hp, List.filter_cons_of_pos hq]
      simp only [List.map_cons, List.sum_cons]
      omega
    | false =>
      rw [List.filter_cons_of_neg (by simp [hp])]
      cases hq : q a with
      | false =>
        rw [List.filter_cons_of_neg (by simp [hq])]
        exact ih
      | true =>
        rw [List.filter_cons_of_pos hq]
        simp only [List.map_cons, List.sum_cons]
        omega

theorem filter_unvisited_cons_in (visited : List String) (a : String)
    (U : List String) (h : a ∉ visited) :
    (a :: U).filter (fun u => decide (u ∉ visited))
      = a :: U.filter (fun u => decide (u ∉ visited)) := by
  simp [List.filter_cons, h]

theorem filter_unvisited_cons_out (visited : List String) (a : String)
    (U : List String) (h : a ∈ visited) :
    (a :: U).filter (fun u => decide (u ∉ visited))
      = U.filter (fun u => decide (u ∉ visited)) := by
  simp [List.filter_cons, h]

theorem sum_filter_unvisit_le (g : List Task) (current : String)
    (visited : List String) (hcv : current ∉ visited) :
    ∀ U : List String, current ∈ U →
      ((U.filter fun u => decide (u ∉ current :: visited)).map (weight g)).sum
        + weight g current ≤
      ((U.filter fun u => decide (u ∉ visited)).map (weight g)).sum := by
  intro U
  induction U with
  | nil => intro h; simp at h
  | cons a U ih =>
    intro hmem
    by_cases hac : a = current
    · subst hac
      have hmono := sum_filter_mono (weight g)
        (fun u => decide (u ∉ a :: visited))
        (fun u => decide (u ∉ visited))
        (by intro u hu; simp at hu ⊢; exact hu.2) U
      rw [filter_unvisited_cons_out (a :: visited) a U (List.mem_cons_self _ _),
        filter_unvisited_cons_in visited a U hcv]
      simp only [List.map_cons, List.sum_cons]
      omega
    · have hmem' : current ∈ U := by
        rcases List.mem_cons.mp hmem with h | h
        · exact absurd h.symm hac
        · exact h
      have hih := ih hmem'
      by_cases hav : a ∈ visited
      · rw [filter_unvisited_cons_out (current :: visited) a U
            (List.mem_cons_of_mem _ hav),
          filter_unvisited_cons_out visited a U hav]
        exact hih
      · have hav' : a ∉ current :: visited := by
          simp only [List.mem_cons]
          push_neg
          exact ⟨hac, hav⟩
        rw [filter_unvisited_cons_in (current :: visited) a U hav',
          filter_unvisited_cons_in visited a U hav]
        simp only [List.map_cons, List.sum_cons]
        omega

theorem closed_set_not_reach (g : List Task) (frm : String) (S : List String)
    (hclosed : ∀ v ∈ S, v ≠ frm ∧ ∀ y ∈ succs g v, y ∈ S) :
    ∀ c ∈ S, ¬ Reaches g c frm := by
  have key : ∀ a, Reaches g a frm → a ∈ S → False := by
    intro a h
    induction h using Relation.ReflTransGen.head_induction_on with
    | refl => intro hfrm; exact (hclosed _ hfrm).1 rfl
    | head hstep _ ih => intro ha; exact ih ((hclosed _ ha).2 _ hstep)
  intro c hc hr
  exact key c hr hc

theorem bfsCycle_false_not_reaches (g : List Task) (frm toId : String) :
    ∀ (fuel : Nat) (visited queue : List String),
      (∀ x ∈ queue, x ∈ uni g toId) →
      (∀ v ∈ visited, v ≠ frm ∧ ∀ y ∈ succs g v, y ∈ visited ∨ y ∈ queue) →
      bfsMeasure g toId visited queue + 1 ≤ fuel →
      bfsCycle g frm fuel visited queue = false →
      ∀ c, (c ∈ queue ∨ c ∈ visited) → ¬ Reaches g c frm := by
  intro fuel
  induction fuel with
  | zero => intro visited queue _ _ hm; omega
  | succ fuel ih =>
    intro visited queue hq hvis hm hfalse
    match queue with
    | [] =>
      intro c hc
      have hc' : c ∈ visited := by
        rcases hc with h | h
        · simp at h
        · exact h
      refine closed_set_not_reach g frm visited ?_ c hc'
      intro v hv
      refine ⟨(hvis v hv).1, fun y hy => ?_⟩
      rcases (hvis v hv).2 y hy with h | h
      · exact h
      · simp at h
    | current :: rest =>
      by_cases hcf : current = frm
      · simp [bfsCycle, hcf] at hfalse
      · by_cases hcv : current ∈ visited
        · have hfalse' : bfsCycle g frm fuel visited rest = false := by
            simpa [bfsCycle, hcf, hcv] using hfalse
          have hm' : bfsMeasure g toId visited rest + 1 ≤ fuel := by
            unfold bfsMeasure at hm ⊢
            simp only [List.length_cons] at hm
            omega
          have hrec := ih visited rest
            (fun x hx => hq x (List.mem_cons_of_mem _ hx))
            (fun v hv => ⟨(hvis v hv).1, fun y hy => by
              rcases (hvis v hv).2 y hy with h | h
              · exact Or.inl h
              · rcases List.mem_cons.mp h with h | h
                · exact Or.inl (h ▸ hcv)
                · exact Or.inr h⟩)
            hm' hfalse'
          intro c hc
          rcases hc with hc | hc
          · rcases List.mem_cons.mp hc with hc | hc
            · exact hrec c (Or.inr (hc ▸ hcv))
            · exact hrec c (Or.inl hc)
          · exact hrec c (Or.inr hc)
        · have hfalse' : bfsCycle g frm fuel (current :: visited)
              (rest ++ succs g current) = false := by
            simpa [bfsCycle, hcf, hcv] using hfalse
          have hcu : current ∈ uni g toId := hq current (List.mem_cons_self _ _)
          have hsum := sum_filter_unvisit_le g current visited hcv
            (uni g toId) hcu
          have hw : weight g current = (succs g current).length + 1 := rfl
          have hm' : bfsMeasure g toId (current :: visited)
              (rest ++ succs g current) + 1 ≤ fuel := by
            unfold bfsMeasure at hm ⊢
            simp only [List.length_cons, List.length_append] at hm ⊢
            omega
          have hrec := ih (current :: visited) (rest ++ succs g current)
            (fun x hx => by
              rcases List.mem_append.mp hx with h | h
              · exact hq x (List.mem_cons_of_mem _ h)
              · exact succs_subset_uni h)
            (fun v hv => by
              rcases List.mem_cons.mp hv with hv | hv
              · subst hv
                exact ⟨hcf, fun y hy => Or.inr (List.mem_append_right _ hy)⟩
              · refine ⟨(hvis v hv).1, fun y hy => ?_⟩
                rcases (hvis v hv).2 y hy with h | h
                · exact Or.inl (List.mem_cons_of_mem _ h)
                · rcases List.mem_cons.mp h with h | h
                  · exact Or.inl (h ▸ List.mem_cons_self _ _)
                  · exact Or.inr (List.mem_append_left _ h))
            hm' hfalse'
          intro c hc
          rcases hc with hc | hc
          · rcases List.mem_cons.mp hc with hc | hc
            · exact hrec c (Or.inr (hc ▸ List.mem_cons_self _ _))
            · exact hrec c (Or.inl (List.mem_append_left _ hc))
          · exact hrec c (Or.inr (List.mem_cons_of_mem _ hc))

/-- Semantic characterization of the BFS: `WouldCreateCycle from to` holds
iff `to` reaches `from` along existing `depends_on` edges. -/
theorem wouldCreateCycle_iff (g : List Task) (frm toId : String) :
    wouldCreateCycle g frm toId = true ↔ Reaches g toId frm := by
  constructor
  · intro h
    obtain ⟨c, hc, hr⟩ := bfsCycle_true_reaches g frm _ _ _ h
    simp only [List.mem_singleton] at hc
    exact hc ▸ hr
  · intro hr
    by_contra hfalse
    have hfalse' : wouldCreateCycle g frm toId = false := by
      simpa using hfalse
    have hm : bfsMeasure g toId [] [toId] + 1 ≤ cycleFuel g toId := by
      unfold bfsMeasure cycleFuel
      have : ((uni g toId).filter fun u => decide (u ∉ ([] : List String)))
          = uni g toId := by
        apply List.filter_eq_self.mpr
        intro a _
        simp
      rw [this]
      simp only [List.length_singleton]
      omega
    have := bfsCycle_false_not_reaches g frm toId (cycleFuel g toId) [] [toId]
      (fun x hx => by simpa using (List.mem_singleton.mp hx) ▸ List.mem_cons_self toId _)
      (fun v hv => by simp at hv)
      hm hfalse'
    exact this toId (Or.inl (List.mem_singleton.mpr rfl)) hr

theorem acyclic_of_acyclicB {g : List Task} (h : acyclicB g = true) : Acyclic g := by
  intro x y hstep hr
  unfold stepRel succs at hstep
  rcases hg : getTask g x with _ | t
  · rw [hg] at hstep; simp at hstep
  · rw [hg] at hstep
    have ht : t ∈ g := mem_of_getTask_eq_some hg
    have hid : t.id = x := id_of_getTask_eq_some hg
    unfold acyclicB at h
    rw [List.all_eq_true] at h
    have := h t ht
    rw [List.all_eq_true] at this
    have hy := this y hstep
    rw [hid] at hy
    rw [(wouldCreateCycle_iff g x y).mpr hr] at hy
    simp at hy

/-! ### Store and lifecycle helper lemmas -/

theorem getTask_of_mem_nodup {g : List Task} {t : Task}
    (hnodup : (g.map Task.id).Nodup) (ht : t ∈ g) : getTask g t.id = some t := by
  induction g with
  | nil => simp at ht
  | cons u g ih =>
    rcases List.mem_cons.mp ht with h | h
    · subst h
      simp [getTask, List.find?_cons]
    · have hne : u.id ≠ t.id := by
        intro he
        have : t.id ∈ g.map Task.id := List.mem_map_of_mem Task.id h
        rw [← he] at this
        exact (List.nodup_cons.mp hnodup).1 this
      have := ih (List.nodup_cons.mp hnodup).2 h
      simpa [getTask, List.find?_cons, hne] using this

theorem exists_mem_id_of_getTask {s : List Task} {id : String} {t : Task}
    (h : getTask s id = some t) : ∃ u ∈ s, u.id = id :=
  ⟨t, mem_of_getTask_eq_some h, id_of_getTask_eq_some h⟩

theorem saveTask_any_true {s : List Task} {t' : Task}
    (hex : ∃ u ∈ s, u.id = t'.id) :
    s.any (fun u => u.id == t'.id) = true := by
  rw [List.any_eq_true]
  obtain ⟨u, hu, he⟩ := hex
  exact ⟨u, hu, by simp [he]⟩

theorem saveTask_eq_map {s : List Task} {t' : Task}
    (hex : ∃ u ∈ s, u.id = t'.id) :
    saveTask s t' = s.map fun u => if u.id == t'.id then t' else u := by
  unfold saveTask
  rw [if_pos (saveTask_any_true hex)]

theorem saveTask_map_id {s : List Task} {t' : Task}
    (hex : ∃ u ∈ s, u.id = t'.id) :
    (saveTask s t').map Task.id = s.map Task.id := by
  rw [saveTask_eq_map hex, List.map_map]
  apply List.map_congr_left
  intro u _
  by_cases h : u.id = t'.id
  · simp [h]
  · simp [h]

theorem find?_id_map_replace {id : String} {t t' : Task} (hid : t'.id = id) :
    ∀ s : List Task, List.find? (fun u => u.id == id) s = some t →
      List.find? (fun u => u.id == id)
        (s.map fun u => if u.id == t'.id then t' else u) = some t' := by
  intro s
  induction s with
  | nil => intro h; simp at h
  | cons u s ih =>
    intro hload
    by_cases h : u.id = id
    · have hhead : (if u.id == t'.id then t' else u) = t' := by
        rw [if_pos (by simp [h, hid])]
      simp only [List.map_cons, hhead]
      exact List.find?_cons_of_pos _ (by simp [hid])
    · have hhead : (if u.id == t'.id then t' else u) = u := by
        rw [if_neg (by simp [h, hid])]
      rw [List.find?_cons_of_neg _ (by simp [h])] at hload
      simp only [List.map_cons, hhead]
      rw [List.find?_cons_of_neg _ (by simp [h])]
      exact ih hload

theorem getTask_saveTask_self {s : List Task} {id : String} {t t' : Task}
    (hload : getTask s id = some t) (hid : t'.id = id) :
    getTask (saveTask s t') id = some t' := by
  have hex : ∃ u ∈ s, u.id = t'.id := by
    rw [hid]; exact exists_mem_id_of_getTask hload
  rw [saveTask_eq_map hex]
  exact find?_id_map_replace hid s hload

theorem countP_le_one_of_nodup_id (s : List Task) (k : String)
    (hnodup : (s.map Task.id).Nodup) :
    s.countP (fun u => u.id == k) ≤ 1 := by
  induction s with
  | nil => simp
  | cons u s ih =>
    rw [List.countP_cons]
    by_cases h : u.id = k
    · have hz : s.countP (fun u => u.id == k) = 0 := by
        rw [List.countP_eq_zero]
        intro v hv
        have hvu : v.id ≠ u.id := by
          intro he
          have : v.id ∈ s.map Task.id := List.mem_map_of_mem Task.id hv
          rw [he] at this
          exact (List.nodup_cons.mp hnodup).1 this
        simp only [beq_iff_eq, decide_eq_true_eq]
        rw [← h]
        exact hvu
      simp [hz, h]
    · have hle := ih (List.nodup_cons.mp hnodup).2
      have h' : (u.id == k) = false := by simp [h]
      simpa [h'] using hle

theorem countP_map_le {p : Task → Bool} {f : Task → Task} (s : List Task)
    (hf : ∀ u ∈ s, p (f u) = true → p u = true) :
    (s.map f).countP p ≤ s.countP p := by
  induction s with
  | nil => simp
  | cons u s ih =>
    simp only [List.map_cons, List.countP_cons]
    have h2 := ih fun v hv => hf v (List.mem_cons_of_mem _ hv)
    by_cases h : p (f u) = true
    · rw [if_pos h, if_pos (hf u (List.mem_cons_self _ _) h)]
      omega
    · rw [if_neg h]
      have h3 : (0:Nat) ≤ if p u = true then 1 else 0 := Nat.zero_le _
      omega

theorem findActive_eq_none_iff (s : List Task) :
    findActive s = none ↔ ∀ u ∈ s, u.status ≠ statusActive := by
  unfold findActive
  rw [List.find?_eq_none]
  constructor
  · intro h u hu he
    exact h u hu (by simp [he])
  · intro h u hu hb
    exact h u hu (by simpa using hb)

theorem findActive_some_mem {s : List Task} {a : Task}
    (h : findActive s = some a) : a ∈ s ∧ a.status = statusActive := by
  refine ⟨List.mem_of_find?_eq_some h, ?_⟩
  have := List.find?_some h
  simpa using this

theorem activeCount_saveTask_inactive {s : List Task} {t' : Task}
    (hex : ∃ u ∈ s, u.id = t'.id) (hne : t'.status ≠ statusActive) :
    activeCount (saveTask s t') ≤ activeCount s := by
  rw [saveTask_eq_map hex]
  unfold activeCount
  apply countP_map_le
  intro u _ hp
  by_cases h : u.id = t'.id
  · rw [if_pos (by simp [h])] at hp
    exact absurd (by simpa using hp) hne
  · rwa [if_neg (by simp [h])] at hp

theorem activeCount_saveTask_activate {s : List Task} {t' : Task}
    (hnodup : (s.map Task.id).Nodup)
    (hex : ∃ u ∈ s, u.id = t'.id)
    (hact : t'.status = statusActive)
    (hnone : ∀ u ∈ s, u.status ≠ statusActive) :
    activeCount (saveTask s t') ≤ 1 := by
  rw [saveTask_eq_map hex]
  unfold activeCount
  rw [List.countP_map]
  have hcongr : ∀ u ∈ s,
      (((fun t => t.status == statusActive) ∘
          fun u => if u.id == t'.id then t' else u) u = true)
        ↔ ((fun u => u.id == t'.id) u = true) := by
    intro u hu
    by_cases h : u.id = t'.id
    · simp [h, hact]
    · simp [h, hnone u hu]
  rw [List.countP_congr hcongr]
  exact countP_le_one_of_nodup_id s t'.id hnodup

theorem claim_ok_inv {s s' : List Task} {id : String}
    (h : claim s id = .ok s') :
    ∃ t, getTask s id = some t ∧ t.status = statusOpen ∧ findActive s = none ∧
      blockedBy s id = [] ∧ s' = saveTask s { t with status := statusActive } := by
  unfold claim loadTask at h
  rcases hg : getTask s id with _ | t
  · rw [hg] at h; simp [Except.bind] at h
  · rw [hg] at h
    have hid := id_of_getTask_eq_some hg
    simp only [Except.bind] at h
    by_cases hst : t.status = statusOpen
    · rw [if_neg (by simp [hst])] at h
      rcases hfa : findActive s with _ | a
      · rw [hfa] at h
        by_cases hb : (blockedBy s t.id).isEmpty = true
        · rw [if_pos hb] at h
          refine ⟨t, rfl, hst, rfl, ?_, ?_⟩
          · rw [← hid]
            exact List.isEmpty_iff.mp hb
          · exact (Except.ok.inj h).symm
        · rw [if_neg hb] at h
          simp at h
      · rw [hfa] at h
        simp at h
    · rw [if_pos (by simp [hst])] at h
      simp at h

theorem release_ok_inv {s s' : List Task} {id : String}
    (h : release s id = .ok s') :
    ∃ t, getTask s id = some t ∧ t.status = statusActive ∧
      s' = saveTask s { t with status := statusOpen } := by
  unfold release loadTask at h
  rcases hg : getTask s id with _ | t
  · rw [hg] at h; simp [Except.bind] at h
  · rw [hg] at h
    simp only [Except.bind] at h
    by_cases hst : t.status = statusActive
    · rw [if_neg (by simp [hst])] at h
      exact ⟨t, rfl, hst, (Except.ok.inj h).symm⟩
    · rw [if_pos (by simp [hst])] at h
      simp at h

theorem close_ok_inv {s s' : List Task} {id reason : String} {now : Nat}
    (h : close s id reason now = .ok s') :
    ∃ t, getTask s id = some t ∧ t.status = statusActive ∧ reason ≠ "" ∧
      s' = saveTask s { t with
        status := statusClosed, closedAt := some now,
        closeReason := some reason } := by
  unfold close loadTask at h
  rcases hg : getTask s id with _ | t
  · rw [hg] at h; simp [Except.bind] at h
  · rw [hg] at h
    simp only [Except.bind] at h
    by_cases hst : t.status = statusActive
    · rw [if_neg (by simp [hst])] at h
      by_cases hr : reason = ""
      · rw [if_pos (by simp [hr])] at h
        simp at h
      · rw [if_neg (by simp [hr])] at h
        exact ⟨t, rfl, hst, hr, (Except.ok.inj h).symm⟩
    · rw [if_pos (by simp [hst])] at h
      simp at h

theorem statusOpen_ne_active : statusOpen ≠ statusActive := by decide

theorem statusClosed_ne_active : statusClosed ≠ statusActive := by decide

theorem applyOp_preserves {s s' : List Task} {op : LifecycleOp}
    (hnodup : (s.map Task.id).Nodup) (hcount : activeCount s ≤ 1)
    (h : applyOp s op = .ok s') :
    s'.map Task.id = s.map Task.id ∧ activeCount s' ≤ 1 := by
  cases op with
  | claim id =>
    obtain ⟨t, hg, _, hfa, _, hs'⟩ := claim_ok_inv h
    have hex : ∃ u ∈ s, u.id = (Task.mk t.id t.title statusActive t.priority
        t.createdAt t.closedAt t.closeReason t.dependsOn).id := by
      exact ⟨t, mem_of_getTask_eq_some hg, rfl⟩
    subst hs'
    constructor
    · exact saveTask_map_id hex
    · exact activeCount_saveTask_activate hnodup hex rfl
        ((findActive_eq_none_iff s).mp hfa)
  | release id =>
    obtain ⟨t, hg, _, hs'⟩ := release_ok_inv h
    have hex : ∃ u ∈ s, u.id = (Task.mk t.id t.title statusOpen t.priority
        t.createdAt t.closedAt t.closeReason t.dependsOn).id := by
      exact ⟨t, mem_of_getTask_eq_some hg, rfl⟩
    subst hs'
    constructor
    · exact saveTask_map_id hex
    · exact le_trans (activeCount_saveTask_inactive hex statusOpen_ne_active) hcount
  | close id reason now =>
    obtain ⟨t, hg, _, _, hs'⟩ := close_ok_inv h
    have hex : ∃ u ∈ s, u.id = (Task.mk t.id t.title statusClosed t.priority
        t.createdAt (some now) (some reason) t.dependsOn).id := by
      exact ⟨t, mem_of_getTask_eq_some hg, rfl⟩
    subst hs'
    constructor
    · exact saveTask_map_id hex
    · exact le_trans (activeCount_saveTask_inactive hex statusClosed_ne_active) hcount

theorem applyOps_preserves :
    ∀ (ops : List LifecycleOp) (s s' : List Task),
      (s.map Task.id).Nodup → activeCount s ≤ 1 →
      applyOps s ops = .ok s' → activeCount s' ≤ 1 := by
  intro ops
  induction ops with
  | nil =>
    intro s s' _ hcount h
    simp only [applyOps] at h
    exact (Except.ok.inj h) ▸ hcount
  | cons op rest ih =>
    intro s s' hnodup hcount h
    simp only [applyOps] at h
    rcases h1 : applyOp s op with e | s1
    · rw [h1] at h; simp [Except.bind] at h
    · rw [h1] at h
      simp only [Except.bind] at h
      obtain ⟨hids, hcount1⟩ := applyOp_preserves hnodup hcount h1
      exact ih s1 s' (hids ▸ hnodup) hcount1 h

/-! ### Concrete fixtures used by counterexamples and witnesses -/

/-- Builds a concrete task for counterexamples and witnesses. -/
def mkTask (id st pr : String) (ca : Nat) (deps : List String) : Task :=
  { id := id, title := id, status := st, priority := pr, createdAt := ca,
    closedAt := none, closeReason := none, dependsOn := deps }

/-- Chain `a → b → c` with a bridge `c → d → a` through the extra item `d`:
the three items `a`, `b`, `c` carry no dependency edges among themselves
other than `a → b` and `b → c`, yet `c` reaches `a` through `d`. -/
def bridgeGraph : List Task :=
  [mkTask "a" statusOpen "medium" 0 ["b"],
   mkTask "b" statusOpen "medium" 1 ["c"],
   mkTask "c" statusOpen "medium" 2 ["d"],
   mkTask "d" statusOpen "medium" 3 ["a"]]

/-- Plain acyclic chain `a → b → c`. -/
def chainGraph : List Task :=
  [mkTask "a" statusOpen "medium" 0 ["b"],
   mkTask "b" statusOpen "medium" 1 ["c"],
   mkTask "c" statusOpen "medium" 2 []]

/-! ### Claim theorems -/

/-- C10: for every item present in the snapshot, adding a dependency of the
item on itself is rejected with `CycleDetected`: the BFS of
`WouldCreateCycle` compares the start node against `from` before following
any edge, so `wouldCreateCycle id id` is always true and the validated
mutation path can never create a self-dependency, even though no dedicated
self-reference check exists. -/
theorem validateAddDep_self_cycle (g : List Task) (id : String) (t : Task)
    (h : getTask g id = some t) :
    validateAddDep g id id = .error (.cycleDetected id id) ∧
      wouldCreateCycle g id id = true := by
  have hc : wouldCreateCycle g id id = true :=
    (wouldCreateCycle_iff g id id).mpr Relation.ReflTransGen.refl
  refine ⟨?_, hc⟩
  simp [validateAddDep, h, hc]

/-- Witness instantiating `validateAddDep_self_cycle` on a concrete
snapshot. -/
theorem validateAddDep_self_cycle_witness :
    validateAddDep chainGraph "a" "a" = .error (.cycleDetected "a" "a") ∧
      wouldCreateCycle chainGraph "a" "a" = true :=
  validateAddDep_self_cycle chainGraph "a"
    (mkTask "a" statusOpen "medium" 0 ["b"]) (by decide)

/-- C5: `validateAddDependency` fails with `TaskNotFound` when either
endpoint is absent (the `from` endpoint checked first, and existence is
checked before the cycle check fires), fails with `CycleDetected` when both
exist and `wouldCreateCycle` holds, and succeeds otherwise.  It is a pure
validation: by its type it returns only a verdict and cannot change any
item. -/
theorem validateAddDep_spec (g : List Task) (frm toId : String) :
    (getTask g frm = none →
      validateAddDep g frm toId = .error (.taskNotFound frm))
    ∧ (getTask g frm ≠ none → getTask g toId = none →
      validateAddDep g frm toId = .error (.taskNotFound toId))
    ∧ (getTask g frm ≠ none → getTask g toId ≠ none →
        wouldCreateCycle g frm toId = true →
      validateAddDep g frm toId = .error (.cycleDetected frm toId))
    ∧ (getTask g frm ≠ none → getTask g toId ≠ none →
        wouldCreateCycle g frm toId = false →
      validateAddDep g frm toId = .ok ()) := by
  refine ⟨?_, ?_, ?_, ?_⟩
  · intro h
    simp [validateAddDep, h]
  · intro h1 h2
    rcases Option.ne_none_iff_exists'.mp h1 with ⟨tf, htf⟩
    simp [validateAddDep, htf, h2]
  · intro h1 h2 hc
    rcases Option.ne_none_iff_exists'.mp h1 with ⟨tf, htf⟩
    rcases Option.ne_none_iff_exists'.mp h2 with ⟨tt, htt⟩
    simp [validateAddDep, htf, htt, hc]
  · intro h1 h2 hc
    rcases Option.ne_none_iff_exists'.mp h1 with ⟨tf, htf⟩
    rcases Option.ne_none_iff_exists'.mp h2 with ⟨tt, htt⟩
    simp [validateAddDep, htf, htt, hc]

/-- Witness instantiating `validateAddDep_spec` on a concrete snapshot and
discharging each case hypothesis: a dangling `from`, a dangling `to`, a
cycle-closing edge, and a valid edge. -/
theorem validateAddDep_spec_witness :
    validateAddDep chainGraph "zz" "a" = .error (.taskNotFound "zz") ∧
    validateAddDep chainGraph "a" "zz" = .error (.taskNotFound "zz") ∧
    validateAddDep chainGraph "c" "a" = .error (.cycleDetected "c" "a") ∧
    validateAddDep chainGraph "a" "c" = .ok () := by
  refine ⟨?_, ?_, ?_, ?_⟩
  · exact (validateAddDep_spec chainGraph "zz" "a").1 (by decide)
  · exact (validateAddDep_spec chainGraph "a" "zz").2.1 (by decide) (by decide)
  · exact (validateAddDep_spec chainGraph "c" "a").2.2.1 (by decide) (by decide)
      (by decide)
  · exact (validateAddDep_spec chainGraph "a" "c").2.2.2 (by decide) (by decide)
      (by decide)

/-- C4 counterexample: in `bridgeGraph`, items `a`, `b`, `c` satisfy every
hypothesis of the claim — `a` depends on `b`, `b` depends on `c`, and no
other `depends_on` edge holds among the three — yet
`wouldCreateCycle a c` is true (not false as claimed), because `c` reaches
`a` through the fourth item `d`. -/
theorem wouldCreateCycle_chain_counterexample :
    getTask bridgeGraph "a" = some (mkTask "a" statusOpen "medium" 0 ["b"]) ∧
    getTask bridgeGraph "b" = some (mkTask "b" statusOpen "medium" 1 ["c"]) ∧
    getTask bridgeGraph "c" = some (mkTask "c" statusOpen "medium" 2 ["d"]) ∧
    ("b" ∈ (mkTask "a" statusOpen "medium" 0 ["b"]).dependsOn) ∧
    ("c" ∈ (mkTask "b" statusOpen "medium" 1 ["c"]).dependsOn) ∧
    ("a" ∉ (mkTask "a" statusOpen "medium" 0 ["b"]).dependsOn) ∧
    ("c" ∉ (mkTask "a" statusOpen "medium" 0 ["b"]).dependsOn) ∧
    ("a" ∉ (mkTask "b" statusOpen "medium" 1 ["c"]).dependsOn) ∧
    ("b" ∉ (mkTask "b" statusOpen "medium" 1 ["c"]).dependsOn) ∧
    ("a" ∉ (mkTask "c" statusOpen "medium" 2 ["d"]).dependsOn) ∧
    ("b" ∉ (mkTask "c" statusOpen "medium" 2 ["d"]).dependsOn) ∧
    ("c" ∉ (mkTask "c" statusOpen "medium" 2 ["d"]).dependsOn) ∧
    wouldCreateCycle bridgeGraph "a" "c" = true := by
  decide

/-- C4 amended: on a snapshot whose existing `depends_on` graph is acyclic
(the store invariant), if `A` depends on `B` and `B` depends on `C` then
`wouldCreateCycle(C, A)` and `wouldCreateCycle(C, B)` are both true and
`wouldCreateCycle(A, C)` is false. -/
theorem wouldCreateCycle_transitive_acyclic (g : List Task)
    (aId bId cId : String) (ta tb : Task)
    (hA : getTask g aId = some ta) (hB : getTask g bId = some tb)
    (hab : bId ∈ ta.dependsOn) (hbc : cId ∈ tb.dependsOn)
    (hacyc : Acyclic g) :
    wouldCreateCycle g cId aId = true ∧ wouldCreateCycle g cId bId = true ∧
      wouldCreateCycle g aId cId = false := by
  have sAB : stepRel g aId bId := by
    unfold stepRel succs
    rw [hA]
    exact hab
  have sBC : stepRel g bId cId := by
    unfold stepRel succs
    rw [hB]
    exact hbc
  refine ⟨?_, ?_, ?_⟩
  · exact (wouldCreateCycle_iff g cId aId).mpr
      (Relation.ReflTransGen.head sAB (Relation.ReflTransGen.single sBC))
  · exact (wouldCreateCycle_iff g cId bId).mpr (Relation.ReflTransGen.single sBC)
  · cases hw : wouldCreateCycle g aId cId with
    | false => rfl
    | true =>
      exfalso
      have hr : Reaches g cId aId := (wouldCreateCycle_iff g aId cId).mp hw
      have hba : Reaches g bId aId :=
        Relation.ReflTransGen.trans (Relation.ReflTransGen.single sBC) hr
      exact hacyc aId bId sAB hba

/-- Witness instantiating `wouldCreateCycle_transitive_acyclic` on the
acyclic chain `a → b → c`. -/
theorem wouldCreateCycle_transitive_acyclic_witness :
    wouldCreateCycle chainGraph "c" "a" = true ∧
    wouldCreateCycle chainGraph "c" "b" = true ∧
    wouldCreateCycle chainGraph "a" "c" = false :=
  wouldCreateCycle_transitive_acyclic chainGraph "a" "b" "c"
    (mkTask "a" statusOpen "medium" 0 ["b"])
    (mkTask "b" statusOpen "medium" 1 ["c"])
    (by decide) (by decide) (by decide) (by decide)
    (acyclic_of_acyclicB (by decide))

/-- C7: when `depId` is already a member of `taskId`'s `depends_on` (both
items present, snapshot acyclic as the store invariant guarantees),
`addDependency` succeeds as an idempotent no-op reported as "already
exists": the resulting store is exactly the input store, every field of
every item unchanged, and no error is raised. -/
theorem addDependency_existing_noop (s : List Task) (taskID depID : String)
    (t td : Task) (ht : getTask s taskID = some t)
    (hd : getTask s depID = some td) (hmem : depID ∈ t.dependsOn)
    (hacyc : Acyclic s) :
    addDependency s taskID depID = .ok (s, .alreadyExists) := by
  have hstep : stepRel s taskID depID := by
    unfold stepRel succs
    rw [ht]
    exact hmem
  have hnc : wouldCreateCycle s taskID depID = false := by
    cases hw : wouldCreateCycle s taskID depID with
    | false => rfl
    | true =>
      exact absurd ((wouldCreateCycle_iff _ _ _).mp hw) (hacyc taskID depID hstep)
  unfold addDependency validateAddDep loadTask
  rw [ht, hd]
  simp [hnc, Except.bind, hmem]

/-- Witness instantiating `addDependency_existing_noop`: re-adding the
existing edge `a → b` of the chain store is a no-op. -/
theorem addDependency_existing_noop_witness :
    addDependency chainGraph "a" "b" = .ok (chainGraph, .alreadyExists) :=
  addDependency_existing_noop chainGraph "a" "b"
    (mkTask "a" statusOpen "medium" 0 ["b"])
    (mkTask "b" statusOpen "medium" 1 ["c"])
    (by decide) (by decide) (by decide)
    (acyclic_of_acyclicB (by decide))

/-- C1: on an id-unique store holding at most one `active` item, any
sequence of claim, release, and close operations that all succeed leaves at
most one `active` item in the store. -/
theorem single_active_invariant (s s' : List Task) (ops : List LifecycleOp)
    (hnodup : (s.map Task.id).Nodup) (hcount : activeCount s ≤ 1)
    (h : applyOps s ops = .ok s') : activeCount s' ≤ 1 :=
  applyOps_preserves ops s s' hnodup hcount h

/-- Two-item store and a claim/release/claim run used to witness the
single-active invariant. -/
def lifecycleStore : List Task :=
  [mkTask "x" statusOpen "medium" 0 [], mkTask "y" statusOpen "medium" 1 []]

/-- The operation sequence of the invariant witness. -/
def lifecycleOps : List LifecycleOp :=
  [.claim "x", .release "x", .claim "y"]

/-- The store the witness run ends in. -/
def lifecycleResult : List Task :=
  [mkTask "x" statusOpen "medium" 0 [], mkTask "y" statusActive "medium" 1 []]

/-- Witness instantiating `single_active_invariant` on a concrete run. -/
theorem single_active_invariant_witness : activeCount lifecycleResult ≤ 1 :=
  single_active_invariant lifecycleStore lifecycleResult lifecycleOps
    (by decide) (by decide) (by decide)

/-- C2: for an item present in the store, `claim` applies its checks in
exactly this order: `InvalidStatus` when the item is not `open`; otherwise
`ActiveTaskExists` carrying the active item's id whenever some (necessarily
other, since the item itself is `open`) item is `active`; otherwise
`Blocked` with the blocking dependency list when it is non-empty; otherwise
success, setting the item's status to `active` and persisting it. -/
theorem claim_check_order (s : List Task) (id : String) (t : Task)
    (ht : getTask s id = some t) :
    (t.status ≠ statusOpen →
      claim s id = .error (.invalidStatus id t.status statusOpen))
    ∧ (t.status = statusOpen → (∃ a ∈ s, a.status = statusActive) →
        ∃ act ∈ s, act.status = statusActive ∧
          claim s id = .error (.activeTaskExists act.id act.title))
    ∧ (t.status = statusOpen → (∀ u ∈ s, u.status ≠ statusActive) →
        blockedBy s id ≠ [] →
        claim s id = .error (.blocked id (blockedBy s id)))
    ∧ (t.status = statusOpen → (∀ u ∈ s, u.status ≠ statusActive) →
        blockedBy s id = [] →
        claim s id = .ok (saveTask s { t with status := statusActive }) ∧
        getTask (saveTask s { t with status := statusActive }) id
          = some { t with status := statusActive }) := by
  have hid := id_of_getTask_eq_some ht
  refine ⟨?_, ?_, ?_, ?_⟩
  · intro hne
    unfold claim loadTask
    simp only [ht, Except.bind]
    rw [if_pos (by simp [hne])]
    rw [hid]
  · intro hopen hex
    rcases hfa : findActive s with _ | a
    · obtain ⟨a, ha, hact⟩ := hex
      exact absurd hact ((findActive_eq_none_iff s).mp hfa a ha)
    · obtain ⟨ham, hact⟩ := findActive_some_mem hfa
      refine ⟨a, ham, hact, ?_⟩
      unfold claim loadTask
      simp only [ht, Except.bind]
      rw [if_neg (by simp [hopen])]
      simp only [hfa]
  · intro hopen hnone hb
    have hfa : findActive s = none := (findActive_eq_none_iff s).mpr hnone
    unfold claim loadTask
    simp only [ht, Except.bind]
    rw [if_neg (by simp [hopen])]
    simp only [hfa, hid]
    rw [if_neg (by simp [List.isEmpty_iff, hb])]
  · intro hopen hnone hb
    have hfa : findActive s = none := (findActive_eq_none_iff s).mpr hnone
    constructor
    · unfold claim loadTask
      simp only [ht, Except.bind]
      rw [if_neg (by simp [hopen])]
      simp only [hfa, hid]
      rw [if_pos (by simp [List.isEmpty_iff, hb])]
    · exact getTask_saveTask_self ht hid

/-- Witness instantiating `claim_check_order` and exercising all four
branches on concrete stores. -/
theorem claim_check_order_witness :
    (claim [mkTask "a" statusClosed "medium" 0 []] "a"
      = .error (.invalidStatus "a" statusClosed statusOpen)) ∧
    (∃ act ∈ [mkTask "a" statusOpen "medium" 0 [],
        mkTask "z" statusActive "medium" 1 []],
      act.status = statusActive ∧
        claim [mkTask "a" statusOpen "medium" 0 [],
          mkTask "z" statusActive "medium" 1 []] "a"
          = .error (.activeTaskExists act.id act.title)) ∧
    (claim [mkTask "a" statusOpen "medium" 0 ["b"],
        mkTask "b" statusOpen "medium" 1 []] "a"
      = .error (.blocked "a" ["b"])) ∧
    (claim [mkTask "a" statusOpen "medium" 0 []] "a"
      = .ok [mkTask "a" statusActive "medium" 0 []]) := by
  refine ⟨?_, ?_, ?_, ?_⟩
  · exact (claim_check_order [mkTask "a" statusClosed "medium" 0 []] "a"
      (mkTask "a" statusClosed "medium" 0 []) (by decide)).1 (by decide)
  · exact (claim_check_order _ "a" (mkTask "a" statusOpen "medium" 0 [])
      (by decide)).2.1 (by decide)
      ⟨mkTask "z" statusActive "medium" 1 [], by decide, by decide⟩
  · have h := (claim_check_order
      [mkTask "a" statusOpen "medium" 0 ["b"], mkTask "b" statusOpen "medium" 1 []]
      "a" (mkTask "a" statusOpen "medium" 0 ["b"]) (by decide)).2.2.1
      (by decide) (by decide) (by decide)
    simpa using h
  · have h := (claim_check_order [mkTask "a" statusOpen "medium" 0 []] "a"
      (mkTask "a" statusOpen "medium" 0 []) (by decide)).2.2.2
      (by decide) (by decide) (by decide)
    simpa using h.1

/-- Initial store of the spec's claim scenario: `a` open without
dependencies, `b` open depending on `a`, `c` closed. -/
def scenarioStore0 : List Task :=
  [mkTask "a" statusOpen "medium" 0 [],
   mkTask "b" statusOpen "medium" 1 ["a"],
   mkTask "c" statusClosed "medium" 2 []]

/-- The scenario store after `a` is claimed. -/
def scenarioStore1 : List Task :=
  [mkTask "a" statusActive "medium" 0 [],
   mkTask "b" statusOpen "medium" 1 ["a"],
   mkTask "c" statusClosed "medium" 2 []]

/-- The scenario store after `a` is closed with reason "done" at tick 7. -/
def scenarioStore2 : List Task :=
  [{ mkTask "a" statusClosed "medium" 0 [] with
      closedAt := some 7, closeReason := some "done" },
   mkTask "b" statusOpen "medium" 1 ["a"],
   mkTask "c" statusClosed "medium" 2 []]

/-- The scenario store after the final successful claim of `b`. -/
def scenarioStore3 : List Task :=
  [{ mkTask "a" statusClosed "medium" 0 [] with
      closedAt := some 7, closeReason := some "done" },
   mkTask "b" statusActive "medium" 1 ["a"],
   mkTask "c" statusClosed "medium" 2 []]

/-- C3 counterexample: in the spec's scenario, claiming `b` while `a` is
still active fails with `ActiveTaskExists{id:"a"}`, not with
`Blocked{id:"b", blockedBy:["a"]}` as the claim states, because `claimCmd`
checks for an existing active task before it computes blocking
dependencies. -/
theorem claim_scenario_counterexample :
    claim scenarioStore0 "a" = .ok scenarioStore1 ∧
    claim scenarioStore1 "b" = .error (.activeTaskExists "a" "a") ∧
    (Except.error (.activeTaskExists "a" "a") : Except BitsError (List Task))
      ≠ .error (.blocked "b" ["a"]) := by
  decide

/-- C3 amended: in the scenario store, claim `a` succeeds and `a` becomes
`active`; a subsequent claim of `b` fails with `ActiveTaskExists{id:"a"}`
(the active-task check precedes the blocked check); close `a` with reason
"done" succeeds; and a final claim of `b` succeeds. -/
theorem claim_scenario_amended :
    claim scenarioStore0 "a" = .ok scenarioStore1 ∧
    getTask scenarioStore1 "a"
      = some (mkTask "a" statusActive "medium" 0 []) ∧
    claim scenarioStore1 "b" = .error (.activeTaskExists "a" "a") ∧
    close scenarioStore1 "a" "done" 7 = .ok scenarioStore2 ∧
    claim scenarioStore2 "b" = .ok scenarioStore3 := by
  decide

theorem taskLess_false_iff (a b : Task) :
    taskLess a b = false ↔
      (priorityOrder b.priority < priorityOrder a.priority ∨
       (priorityOrder a.priority = priorityOrder b.priority ∧
        b.createdAt ≤ a.createdAt)) := by
  unfold taskLess
  by_cases h : priorityOrder a.priority = priorityOrder b.priority
  · rw [if_neg (by simp [h])]
    simp [h]
  · rw [if_pos h]
    simp only [decide_eq_false_iff_not, not_lt]
    constructor
    · intro hle
      left
      omega
    · intro hor
      rcases hor with hlt | ⟨heq, _⟩
      · omega
      · exact absurd heq h

instance : IsTotal Task taskLE :=
  ⟨fun a b => by
    unfold taskLE
    rw [taskLess_false_iff, taskLess_false_iff]
    omega⟩

instance : IsTrans Task taskLE :=
  ⟨fun a b c hab hbc => by
    unfold taskLE at hab hbc ⊢
    rw [taskLess_false_iff] at hab hbc ⊢
    omega⟩

/-- C6: `ready` returns exactly the `open`, unblocked items — a
permutation of the snapshot filtered on those two conditions — sorted with
primary key the priority order (`critical` < `high` < `medium` < `low`,
anything unrecognized after all four) and secondary key `created_at`
ascending; in particular no returned item has a non-`open` status or an
existing dependency that is not `closed`. -/
theorem ready_spec (g : List Task) (hnodup : (g.map Task.id).Nodup) :
    (ready g).Perm
      (g.filter fun t => t.status == statusOpen && !(isBlocked g t.id))
    ∧ (ready g).Pairwise (fun a b =>
        priorityOrder a.priority < priorityOrder b.priority ∨
        (priorityOrder a.priority = priorityOrder b.priority ∧
          a.createdAt ≤ b.createdAt))
    ∧ (priorityOrder "critical" < priorityOrder "high" ∧
       priorityOrder "high" < priorityOrder "medium" ∧
       priorityOrder "medium" < priorityOrder "low" ∧
       ∀ p, p ∉ (["critical", "high", "medium", "low"] : List String) →
         priorityOrder p = 4)
    ∧ ∀ t ∈ ready g, t.status = statusOpen ∧ isBlocked g t.id = false ∧
        ∀ d ∈ t.dependsOn, ∀ u, getTask g d = some u →
          u.status = statusClosed := by
  refine ⟨List.perm_insertionSort _ _, ?_, ⟨by decide, by decide, by decide, ?_⟩, ?_⟩
  case refine_2 =>
    intro p hp
    simp only [List.mem_cons, List.not_mem_nil, or_false, not_or] at hp
    obtain ⟨h1, h2, h3, h4⟩ := hp
    simp [priorityOrder, h1, h2, h3, h4]
  · have hs : List.Sorted taskLE (ready g) := List.sorted_insertionSort _ _
    refine hs.imp ?_
    intro a b hab
    unfold taskLE at hab
    rw [taskLess_false_iff] at hab
    omega
  · intro t htr
    have htf : t ∈ g.filter
        (fun t => t.status == statusOpen && !(isBlocked g t.id)) :=
      (List.Perm.mem_iff (List.perm_insertionSort _ _)).mp htr
    obtain ⟨htg, hcond⟩ := List.mem_filter.mp htf
    obtain ⟨hc1, hc2⟩ := Bool.and_eq_true _ _ |>.mp hcond
    have h1 : t.status = statusOpen := by simpa using hc1
    have h2 : isBlocked g t.id = false := by simpa using hc2
    refine ⟨h1, h2, ?_⟩
    intro d hd u hu
    have hgt : getTask g t.id = some t := getTask_of_mem_nodup hnodup htg
    unfold isBlocked at h2
    rw [hgt] at h2
    rw [List.any_eq_false] at h2
    have hdep := h2 d hd
    rw [hu] at hdep
    simpa using hdep

/-- Store used to witness `ready_spec`: mixed priorities, one item blocked
by an open dependency. -/
def readyStore : List Task :=
  [mkTask "x" statusOpen "low" 3 [],
   mkTask "y" statusOpen "critical" 2 [],
   mkTask "z" statusOpen "high" 1 [],
   mkTask "w" statusOpen "critical" 0 ["x"]]

/-- Witness instantiating `ready_spec` on `readyStore`. -/
theorem ready_spec_witness :
    (ready readyStore).Perm
      (readyStore.filter fun t =>
        t.status == statusOpen && !(isBlocked readyStore t.id)) :=
  (ready_spec readyStore (by decide)).1

/-- C8: removing an existing item first strips its id from every item's
`depends_on` (the cascading cleanup of `Store.RemoveDependency`) and then
deletes the item from the already-cleaned store, in that order; afterwards
the item is gone and no remaining item's `depends_on` mentions it. -/
theorem removeItem_spec (s : List Task) (id : String) (t : Task)
    (h : getTask s id = some t) :
    removeItem s id = .ok ((removeDepAll s id).filter fun u => u.id != id) ∧
    ∀ u ∈ (removeDepAll s id).filter (fun u => u.id != id),
      u.id ≠ id ∧ id ∉ u.dependsOn := by
  constructor
  · have hany : (removeDepAll s id).any (fun u => u.id == id) = true := by
      rw [List.any_eq_true]
      refine ⟨{ t with dependsOn := t.dependsOn.filter fun d => d != id },
        ?_, ?_⟩
      · exact List.mem_map_of_mem _ (mem_of_getTask_eq_some h)
      · simp [id_of_getTask_eq_some h]
    unfold removeItem loadTask deleteTask
    simp only [h, Except.bind]
    rw [if_pos hany]
  · intro u hu
    obtain ⟨hmem, hcond⟩ := List.mem_filter.mp hu
    refine ⟨by simpa using hcond, ?_⟩
    obtain ⟨v, _, hv⟩ := List.mem_map.mp hmem
    intro hin
    rw [← hv] at hin
    simp only at hin
    have := List.mem_filter.mp hin
    simp at this

/-- Witness instantiating `removeItem_spec`: removing `b` from the chain
store cleans `a`'s dependency on it before deleting `b`. -/
theorem removeItem_spec_witness :
    removeItem chainGraph "b"
      = .ok ((removeDepAll chainGraph "b").filter fun u => u.id != "b") :=
  (removeItem_spec chainGraph "b" (mkTask "b" statusOpen "medium" 1 ["c"])
    (by decide)).1

/-- C9: with a session record present and at most one `active` item in the
store, the stop hook blocks termination exactly when the caller is the
recorded owner, drain mode is active, and at least one `active` or `open`
item remains; when it blocks on an `active` item it reports that single
item's id, and when it blocks with no `active` item left it reports the
count of remaining `open` items.  In every other case termination is
allowed. -/
theorem sessionHook_spec (sess : Session) (callerID : String)
    (tasks : List Task)
    (hone : tasks.countP (fun t => t.status == statusActive) ≤ 1) :
    (sessionHook (some sess) callerID tasks ≠ .allow ↔
      (sess.sessionId = callerID ∧ sess.drainActive = true ∧
        ∃ t ∈ tasks, t.status = statusActive ∨ t.status = statusOpen))
    ∧ (∀ i, sessionHook (some sess) callerID tasks = .blockActive i →
        ∃ t ∈ tasks, t.status = statusActive ∧ t.id = i ∧
          ∀ u ∈ tasks, u.status = statusActive → u = t)
    ∧ (∀ n, sessionHook (some sess) callerID tasks = .blockOpen n →
        n = tasks.countP (fun t => t.status == statusOpen) ∧
        ∀ u ∈ tasks, u.status ≠ statusActive) := by
  by_cases howner : sess.sessionId = callerID
  · by_cases hdrain : sess.drainActive = true
    · rcases hft : tasks.filter (fun t => t.status == statusActive)
        with _ | ⟨t, rest⟩
      · have hnoact : ∀ u ∈ tasks, u.status ≠ statusActive := by
          intro u hu he
          have : u ∈ tasks.filter (fun t => t.status == statusActive) :=
            List.mem_filter.mpr ⟨hu, by simp [he]⟩
          rw [hft] at this
          simp at this
        by_cases hlen :
            (tasks.filter (fun t => t.status == statusOpen)).length > 0
        · have hd : sessionHook (some sess) callerID tasks
              = .blockOpen
                (tasks.filter (fun t => t.status == statusOpen)).length := by
            simp [sessionHook, howner, hdrain, hft, hlen]
          refine ⟨?_, ?_, ?_⟩
          · rw [hd]
            simp only [ne_eq]
            constructor
            · intro _
              refine ⟨howner, hdrain, ?_⟩
              rcases hop : tasks.filter (fun t => t.status == statusOpen)
                with _ | ⟨v, vrest⟩
              · rw [hop] at hlen; simp at hlen
              · have hv : v ∈ tasks.filter (fun t => t.status == statusOpen) := by
                  rw [hop]; exact List.mem_cons_self _ _
                obtain ⟨hvm, hvc⟩ := List.mem_filter.mp hv
                exact ⟨v, hvm, Or.inr (by simpa using hvc)⟩
            · intro _
              simp
          · intro i hi
            rw [hd] at hi
            simp at hi
          · intro n hn
            rw [hd] at hn
            have : n = (tasks.filter (fun t => t.status == statusOpen)).length :=
              (HookDecision.blockOpen.inj hn).symm
            refine ⟨?_, hnoact⟩
            rw [this, List.countP_eq_length_filter]
        · have hd : sessionHook (some sess) callerID tasks = .allow := by
            simp only [sessionHook, hft]
            rw [if_neg (by simp [howner]), if_neg (by simp [hdrain]),
              if_neg hlen]
          refine ⟨?_, ?_, ?_⟩
          · rw [hd]
            simp only [ne_eq, not_true_eq_false, false_iff]
            rintro ⟨_, _, u, hu, hor⟩
            rcases hor with ha | ho
            · exact hnoact u hu ha
            · have : u ∈ tasks.filter (fun t => t.status == statusOpen) :=
                List.mem_filter.mpr ⟨hu, by simp [ho]⟩
              have hpos : 0 <
                  (tasks.filter (fun t => t.status == statusOpen)).length :=
                List.length_pos.mpr (List.ne_nil_of_mem this)
              omega
          · intro i hi
            rw [hd] at hi
            simp at hi
          · intro n hn
            rw [hd] at hn
            simp at hn
      · have hd : sessionHook (some sess) callerID tasks
            = .blockActive t.id := by
          simp [sessionHook, howner, hdrain, hft]
        have htm : t ∈ tasks.filter (fun u => u.status == statusActive) := by
          rw [hft]; exact List.mem_cons_self _ _
        obtain ⟨htmem, htact⟩ := List.mem_filter.mp htm
        have htact' : t.status = statusActive := by simpa using htact
        have hrest : rest = [] := by
          have hcp : tasks.countP (fun t => t.status == statusActive)
              = (t :: rest).length := by
            rw [List.countP_eq_length_filter, hft]
          simp only [List.length_cons] at hcp
          cases rest with
          | nil => rfl
          | cons r rs =>
            rw [hcp] at hone
            simp at hone
        refine ⟨?_, ?_, ?_⟩
        · rw [hd]
          simp only [ne_eq]
          constructor
          · intro _
            exact ⟨howner, hdrain, t, htmem, Or.inl htact'⟩
          · intro _
            simp
        · intro i hi
          rw [hd] at hi
          have hit : t.id = i := HookDecision.blockActive.inj hi
          refine ⟨t, htmem, htact', hit, ?_⟩
          intro u hu hua
          have : u ∈ tasks.filter (fun v => v.status == statusActive) :=
            List.mem_filter.mpr ⟨hu, by simp [hua]⟩
          rw [hft, hrest] at this
          simpa using this
        · intro n hn
          rw [hd] at hn
          simp at hn
    · have hd : sessionHook (some sess) callerID tasks = .allow := by
        have : sess.drainActive = false := by
          cases h : sess.drainActive
          · rfl
          · exact absurd h hdrain
        simp [sessionHook, howner, this]
      refine ⟨?_, ?_, ?_⟩
      · rw [hd]
        simp only [ne_eq, not_true_eq_false, false_iff]
        rintro ⟨_, hdr, _⟩
        exact hdrain hdr
      · intro i hi
        rw [hd] at hi
        simp at hi
      · intro n hn
        rw [hd] at hn
        simp at hn
  · have hd : sessionHook (some sess) callerID tasks = .allow := by
      simp [sessionHook, howner]
    refine ⟨?_, ?_, ?_⟩
    · rw [hd]
      simp only [ne_eq, not_true_eq_false, false_iff]
      rintro ⟨how, _, _⟩
      exact howner how
    · intro i hi
      rw [hd] at hi
      simp at hi
    · intro n hn
      rw [hd] at hn
      simp at hn

/-- Session record used by the hook witness. -/
def drainSession : Session :=
  { sessionId := "s1", startedAt := 0, source := "startup",
    drainActive := true, drainStartedAt := some 1 }

/-- Witness instantiating `sessionHook_spec`: the draining owner is blocked
on the single active item of the scenario store. -/
theorem sessionHook_spec_witness :
    sessionHook (some drainSession) "s1" scenarioStore1 ≠ .allow ↔
      (drainSession.sessionId = "s1" ∧ drainSession.drainActive = true ∧
        ∃ t ∈ scenarioStore1,
          t.status = statusActive ∨ t.status = statusOpen) :=
  (sessionHook_spec drainSession "s1" scenarioStore1 (by decide)).1

end Bits
